import Mathlib

/-!
Verification of the apk-package task pipeline and rule engine.

This file gives a shallow embedding, in Lean, of the rule validator
(`app/services/rule_engine.py: RuleEngine.validate_rules`), the rule
appliers (`apply_script_rule`, `apply_image_rule`), the task pipeline
(`app/services/apk_processor.py: APKProcessor.process_task`) and the
background runner (`app/routers/task_router.py: _run_task`), and proves
the specified properties about them.

Modelling conventions:
* Python strings are modelled as `List Char` (`Str`); file-system paths as
  lists of path segments (`FPath`), rooted at the file-system root.
* The file system is a finite association list from paths to entries
  (regular file or directory).  A text file stores the decoded character
  content of its UTF-8 bytes; `FileData.binary` stands for raw bytes that
  are not valid UTF-8 text.
* Python's `base64.b64decode` is modelled after CPython's `binascii`
  in both its lenient (default) and strict (`validate=True`) modes.
* Python's `re` module is modelled by a small regular-expression engine
  (Brzozowski derivatives) over a subset of the pattern syntax; patterns
  outside the subset fail to compile.  On the accepted subset (literal
  characters, `.`, grouping, alternation, repeaters) a position has a
  match in the model exactly when CPython finds one there.  `re.sub`
  compiles its replacement template eagerly, before scanning, as CPython
  does: a template escape outside the modelled literal subset is a
  compile error even when the pattern has zero matches.  The global
  substitution itself is a left-to-right scan.
* The external `apktool` recompile step is an opaque process; its outcome
  (exit code and captured stderr) is an explicit parameter `ToolOutcome`.
-/

namespace ApkPack

/-- Python strings, as lists of characters. -/
abbrev Str := List Char

/-- One path segment. -/
abbrev Seg := List Char

/-- A file-system path: the list of segments from the file-system root. -/
abbrev FPath := List Seg

/-- Coerce a Lean string literal to the `Str` model. -/
def chars (s : String) : Str := s.data

/-- Characters stripped by Python's `str.strip()` (ASCII whitespace). -/
def isSpaceChar (c : Char) : Bool :=
  c = ' ' ∨ c = '\t' ∨ c = '\n' ∨ c = '\r' ∨ c = '\x0b' ∨ c = '\x0c'

/-- `not s.strip()` in Python: the string is empty or all whitespace. -/
def stripEmpty (s : Str) : Bool := s.all isSpaceChar

/-- Python `s.strip()`: remove leading and trailing whitespace. -/
def pyStrip (s : Str) : Str :=
  ((s.dropWhile isSpaceChar).reverse.dropWhile isSpaceChar).reverse

/-- `p` is an initial run of `s` (Python `s.startswith(p)`). -/
def leadsWith (p s : Str) : Bool :=
  match p, s with
  | [], _ => true
  | _ :: _, [] => false
  | a :: as_, b :: bs => a = b && leadsWith as_ bs

/-- Python `p in s`: `p` occurs as a contiguous substring of `s`. -/
def hasSub (p : Str) : Str → Bool
  | [] => p.isEmpty
  | c :: t => leadsWith p (c :: t) || hasSub p t

/-- Python `s.startswith("/")`. -/
def startsWithSlash (s : Str) : Bool :=
  match s with
  | '/' :: _ => true
  | _ => false

theorem leadsWith_refl_append (p r : Str) : leadsWith p (p ++ r) = true := by
  induction p with
  | nil => rfl
  | cons a as_ ih => simp [leadsWith, ih]

theorem hasSub_cons_of (p : Str) (c : Char) (t : Str) (h : hasSub p t = true) :
    hasSub p (c :: t) = true := by
  simp [hasSub, h]

theorem hasSub_of_leadsWith {p s : Str} (h : leadsWith p s = true) :
    hasSub p s = true := by
  cases s with
  | nil =>
    cases p with
    | nil => rfl
    | cons a as_ => simp [leadsWith] at h
  | cons c t => simp [hasSub, h]

/-- A substring that was concatenated in is found by `hasSub`. -/
theorem hasSub_append_middle (a x b : Str) : hasSub x (a ++ (x ++ b)) = true := by
  induction a with
  | nil => exact hasSub_of_leadsWith (leadsWith_refl_append x b)
  | cons c t ih => exact hasSub_cons_of _ _ _ ih

/-- `hasSub p (c :: t) = false` yields both component facts. -/
theorem hasSub_cons_false {p : Str} {c : Char} {t : Str}
    (h : hasSub p (c :: t) = false) :
    leadsWith p (c :: t) = false ∧ hasSub p t = false := by
  simpa [hasSub] using h

/-! ### Base64 (`base64.b64decode`), after CPython's `binascii.a2b_base64` -/

/-- Value of one base64 alphabet character, `none` for non-alphabet input. -/
def charB64Val (c : Char) : Option Nat :=
  if 'A' ≤ c ∧ c ≤ 'Z' then some (c.toNat - 'A'.toNat)
  else if 'a' ≤ c ∧ c ≤ 'z' then some (c.toNat - 'a'.toNat + 26)
  else if '0' ≤ c ∧ c ≤ '9' then some (c.toNat - '0'.toNat + 52)
  else if c = '+' then some 62
  else if c = '/' then some 63
  else none

/-- Emit the three bytes of one full quad of 6-bit values. -/
def emitQuad (a b c d : Nat) : List Nat :=
  [a * 4 + b / 16, b % 16 * 16 + c / 4, c % 4 * 64 + d]

/-- Emit the bytes of a padded final quad (2 or 3 data characters). -/
def emitPartial (quad : List Nat) : List Nat :=
  match quad with
  | [a, b] => [a * 4 + b / 16]
  | [a, b, c] => [a * 4 + b / 16, b % 16 * 16 + c / 4]
  | _ => []

/-- Loop of the lenient (default) decoder: non-alphabet characters are
skipped, padding that completes a quad ends decoding. -/
def b64LenGo : Str → List Nat → Nat → List Nat → Except Str (List Nat)
  | [], quad, _, acc =>
    match quad with
    | [] => .ok acc
    | [_] => .error (chars "Invalid base64-encoded string: number of data characters cannot be 1 more than a multiple of 4")
    | _ => .error (chars "Incorrect padding")
  | c :: t, quad, pads, acc =>
    if c = '=' then
      if quad.length < 2 then b64LenGo t quad pads acc
      else if 4 ≤ quad.length + (pads + 1) then .ok (acc ++ emitPartial quad)
      else b64LenGo t quad (pads + 1) acc
    else
      match charB64Val c with
      | none => b64LenGo t quad pads acc
      | some v =>
        match quad with
        | [a, b, c3] => b64LenGo t [] 0 (acc ++ emitQuad a b c3 v)
        | _ => b64LenGo t (quad ++ [v]) 0 acc

/-- `base64.b64decode(s)` (lenient mode, as called by `apply_image_rule`). -/
def b64Lenient (s : Str) : Except Str (List Nat) := b64LenGo s [] 0 []

/-- Loop of the strict decoder (`validate=True`, as called by the
validator): non-alphabet characters, leading padding, discontinuous
padding and excess data are all errors. -/
def b64StrictGo : Str → List Nat → Nat → Bool → List Nat → Except Str (List Nat)
  | [], quad, _, _, acc =>
    match quad with
    | [] => .ok acc
    | [_] => .error (chars "Invalid base64-encoded string: number of data characters cannot be 1 more than a multiple of 4")
    | _ => .error (chars "Incorrect padding")
  | c :: t, quad, pads, started, acc =>
    if c = '=' then
      if quad.length = 0 then .error (chars "Leading padding is not allowed")
      else if quad.length < 2 then b64StrictGo t quad pads true acc
      else if 4 ≤ quad.length + (pads + 1) then
        if t.isEmpty then .ok (acc ++ emitPartial quad)
        else .error (chars "Excess data after padding")
      else b64StrictGo t quad (pads + 1) true acc
    else
      match charB64Val c with
      | none => .error (chars "Only base64 data is allowed")
      | some v =>
        if started then .error (chars "Discontinuous padding is not allowed")
        else
          match quad with
          | [a, b, c3] => b64StrictGo t [] 0 false (acc ++ emitQuad a b c3 v)
          | _ => b64StrictGo t (quad ++ [v]) 0 false acc

/-- `base64.b64decode(s, validate=True)` (strict mode). -/
def b64Strict (s : Str) : Except Str (List Nat) := b64StrictGo s [] 0 false []

/-! ### Python `str.replace` (literal global substitution) -/

/-- `"ab".replace("", r)` inserts `r` before every character and at the
end; this is the empty-pattern branch of `str.replace`. -/
def emptyPatRepl (repl : Str) : Str → Str
  | [] => repl
  | c :: t => repl ++ c :: emptyPatRepl repl t

/-- Left-to-right non-overlapping replacement of a non-empty pattern. -/
def replLoop (pat repl : Str) : Str → Str
  | [] => []
  | c :: t =>
    if leadsWith pat (c :: t) then repl ++ replLoop pat repl (t.drop (pat.length - 1))
    else c :: replLoop pat repl t
termination_by s => s.length
decreasing_by
  · simp only [List.length_drop, List.length_cons]
    omega
  · simp

/-- Python `content.replace(pattern, replacement)`: replace all
non-overlapping occurrences, scanning left to right. -/
def pyReplace (s pat repl : Str) : Str :=
  if pat.isEmpty then emptyPatRepl repl s else replLoop pat repl s

/-- If the pattern does not occur, `replLoop` is the identity. -/
theorem replLoop_no_occur (pat repl : Str) (s : Str)
    (h : hasSub pat s = false) : replLoop pat repl s = s := by
  induction s with
  | nil => simp [replLoop]
  | cons c t ih =>
    obtain ⟨h1, h2⟩ := hasSub_cons_false h
    rw [replLoop, if_neg (by simp [h1]), ih h2]

/-- If the pattern does not occur (hence in particular is non-empty),
`pyReplace` leaves the string unchanged. -/
theorem pyReplace_no_occur (s pat repl : Str)
    (h : hasSub pat s = false) : pyReplace s pat repl = s := by
  have hne : pat.isEmpty = false := by
    cases pat with
    | nil =>
      exfalso
      cases s with
      | nil => simp [hasSub, List.isEmpty] at h
      | cons c t => simp [hasSub, leadsWith] at h
    | cons a as_ => rfl
  simp [pyReplace, hne, replLoop_no_occur _ _ _ h]

/-! ### Regular expressions (model of Python's `re` module)

A small regex engine by Brzozowski derivatives.  The supported pattern
subset: literal characters, `\`-escapes (`\d`, `\s`, `\w`, and escaped
punctuation), the wildcard `.`, grouping `(...)`, alternation `|`, and
the postfix repeaters `*`, `+`, `?`.  `re.compile` on a pattern outside
this subset is modelled as a compile failure.  Matching is modelled as
longest-match at each position; `re.sub` replaces every non-overlapping
match scanning left to right, as Python does. -/

inductive Reg where
  | emp : Reg
  | eps : Reg
  | chr : Char → Reg
  | anyc : Reg
  | alt : Reg → Reg → Reg
  | cat : Reg → Reg → Reg
  | star : Reg → Reg
deriving DecidableEq

/-- The regex accepts the empty string. -/
def nullable : Reg → Bool
  | .emp => false
  | .eps => true
  | .chr _ => false
  | .anyc => false
  | .alt a b => nullable a || nullable b
  | .cat a b => nullable a && nullable b
  | .star _ => true

/-- Brzozowski derivative by one character. -/
def rderiv : Reg → Char → Reg
  | .emp, _ => .emp
  | .eps, _ => .emp
  | .chr c, x => if c = x then .eps else .emp
  | .anyc, x => if x = '\n' then .emp else .eps
  | .alt a b, x => .alt (rderiv a x) (rderiv b x)
  | .cat a b, x =>
    if nullable a then .alt (.cat (rderiv a x) b) (rderiv b x)
    else .cat (rderiv a x) b
  | .star a, x => .cat (rderiv a x) (.star a)

/-- Length of the longest prefix of `s` matched by `r` (`none` when no
prefix, not even the empty one, matches). -/
def longestMatchLen (r : Reg) (s : Str) : Option Nat :=
  go r s 0 (if nullable r then some 0 else none)
where
  go : Reg → Str → Nat → Option Nat → Option Nat
  | _, [], _, best => best
  | r, c :: t, n, best =>
    let r' := rderiv r c
    go r' t (n + 1) (if nullable r' then some (n + 1) else best)

/-- Some match of `r` starts at some position of `s` (including an empty
match, also at the end of the string). -/
def regexHasMatch (r : Reg) : Str → Bool
  | [] => (longestMatchLen r []).isSome
  | c :: t => (longestMatchLen r (c :: t)).isSome || regexHasMatch r t

/-- One step of `re.sub`'s global scan: a positive-length match is
replaced and skipped; an empty match inserts the replacement and keeps
the current character; no match keeps the character. -/
def reSubGo (r : Reg) (repl : Str) : Str → Str
  | [] => if nullable r then repl else []
  | c :: t =>
    match longestMatchLen r (c :: t) with
    | some (n + 1) => repl ++ reSubGo r repl (t.drop n)
    | some 0 => repl ++ c :: reSubGo r repl t
    | none => c :: reSubGo r repl t
termination_by s => s.length
decreasing_by
  all_goals simp only [List.length_drop, List.length_cons]
  all_goals omega

/-- `re.sub(pattern, repl, content)` once the pattern is compiled. -/
def reSub (r : Reg) (repl : Str) (s : Str) : Str := reSubGo r repl s

theorem longestMatchLen_nil_of_not_nullable {r : Reg} (h : nullable r = false) :
    longestMatchLen r [] = none := by
  simp [longestMatchLen, longestMatchLen.go, h]

/-- If no match of `r` starts anywhere in `s`, `re.sub` leaves `s`
unchanged. -/
theorem reSub_no_match (r : Reg) (repl : Str) (s : Str)
    (h : regexHasMatch r s = false) : reSub r repl s = s := by
  unfold reSub
  induction s with
  | nil =>
    have hn : longestMatchLen r [] = none := by simpa [regexHasMatch] using h
    have hnul : nullable r = false := by
      cases hx : nullable r with
      | false => rfl
      | true => simp [longestMatchLen, longestMatchLen.go, hx] at hn
    simp [reSubGo, hnul]
  | cons c t ih =>
    have hp : longestMatchLen r (c :: t) = none ∧ regexHasMatch r t = false := by
      simpa [regexHasMatch] using h
    simp [reSubGo, hp.1, ih hp.2]

/-! ### Regex pattern compiler (`re.compile`), subset of Python syntax

Class escapes (`\d`, `\s`, `\w`, ...) are outside the modelled subset and
fail to compile: their Python semantics is Unicode-character-property
based and a finite character list would make the model match differently
from the program.  On the accepted atoms, matching agrees with CPython's
character-by-character semantics. -/

mutual

/-- Parse one atom (a literal, class, wildcard or group). -/
def parseAtom (fuel : Nat) (s : Str) : Option (Reg × Str) :=
  match fuel, s with
  | 0, _ => none
  | _ + 1, [] => none
  | fuel + 1, c :: t =>
    if c = '(' then
      match parseAlt fuel t with
      | some (r, ')' :: t2) => some (r, t2)
      | _ => none
    else if c = '\\' then
      match t with
      | [] => none
      | e :: t2 =>
        if e.isAlphanum then none
        else some (.chr e, t2)
    else if c = '.' then some (.anyc, t)
    else if c = '*' ∨ c = '+' ∨ c = '?' ∨ c = '|' ∨ c = ')' ∨ c = '[' ∨
            c = '{' ∨ c = '$' ∨ c = '^' then none
    else some (.chr c, t)

/-- Parse an atom followed by an optional repeater. -/
def parseRepeated (fuel : Nat) (s : Str) : Option (Reg × Str) :=
  match fuel with
  | 0 => none
  | fuel + 1 =>
    match parseAtom fuel s with
    | none => none
    | some (r, rest) =>
      match rest with
      | '*' :: t => some (.star r, t)
      | '+' :: t => some (.cat r (.star r), t)
      | '?' :: t => some (.alt r .eps, t)
      | _ => some (r, rest)

/-- Parse a concatenation of repeated atoms (a branch of an alternation). -/
def parseConcat (fuel : Nat) (s : Str) : Option (Reg × Str) :=
  match fuel with
  | 0 => none
  | fuel + 1 =>
    match s with
    | [] => some (.eps, [])
    | ')' :: _ => some (.eps, s)
    | '|' :: _ => some (.eps, s)
    | _ =>
      match parseRepeated fuel s with
      | none => none
      | some (r, rest) =>
        match parseConcat fuel rest with
        | some (r2, rest2) => some (.cat r r2, rest2)
        | none => none

/-- Parse an alternation. -/
def parseAlt (fuel : Nat) (s : Str) : Option (Reg × Str) :=
  match fuel with
  | 0 => none
  | fuel + 1 =>
    match parseConcat fuel s with
    | none => none
    | some (r, rest) =>
      match rest with
      | '|' :: t =>
        match parseAlt fuel t with
        | some (r2, rest2) => some (.alt r r2, rest2)
        | none => none
      | _ => some (r, rest)

end

/-- `re.compile(pattern)`: `none` models a `re.error`. -/
def parseRegex (pat : Str) : Option Reg :=
  match parseAlt (4 * pat.length + 4) pat with
  | some (r, []) => some r
  | _ => none

/-- `re.sub`'s replacement-template compiler (CPython's
`re._parser.parse_template`), on a literal subset: the accepted escapes
are `\\`, `\n`, `\t`, `\r`; any other escape — a bad escape such as
`\q`, but also group references, which this model cannot expand — is a
compile error.  CPython compiles the template *before* scanning for
matches, so such an error is raised even when the pattern never matches;
a replacement without a backslash is used literally and never errors, in
the model as in CPython. -/
def parseTemplate : Str → Except Str Str
  | [] => .ok []
  | c :: t =>
    if c = '\\' then
      match t with
      | [] => .error (chars "re.error: bad escape (end of pattern)")
      | e :: t2 =>
        if e = '\\' then (parseTemplate t2).map (fun r => '\\' :: r)
        else if e = 'n' then (parseTemplate t2).map (fun r => '\n' :: r)
        else if e = 't' then (parseTemplate t2).map (fun r => '\t' :: r)
        else if e = 'r' then (parseTemplate t2).map (fun r => '\r' :: r)
        else .error (chars "re.error: bad escape or template escape outside the modelled subset")
    else (parseTemplate t).map (fun r => c :: r)

/-! ### File-system model

A finite association list from absolute paths to entries.  Lookup takes
the first matching key; update conses a fresh binding and erases stale
ones, so lookups behave as on a finite map. -/

/-- Content of a regular file.  `text s` stands for a file whose bytes
are the UTF-8 encoding of `s`; `binary b` stands for raw bytes that are
not valid UTF-8 text. -/
inductive FileData where
  | text : Str → FileData
  | binary : List Nat → FileData
deriving DecidableEq

/-- A directory entry: regular file or directory. -/
inductive FSEntry where
  | file : FileData → FSEntry
  | dir : FSEntry
deriving DecidableEq

/-- The file system. -/
abbrev FS := List (FPath × FSEntry)

/-- `os.path` existence / stat: the entry at `p`, if any. -/
def lookupFS : FS → FPath → Option FSEntry
  | [], _ => none
  | (q, e) :: t, p => if q = p then some e else lookupFS t p

/-- Store `e` at `p`, replacing any previous entry. -/
def setFS (fs : FS) (p : FPath) (e : FSEntry) : FS :=
  (p, e) :: fs.filter (fun kv => ¬ kv.1 = p)

/-- `root` is `p` itself or an ancestor directory of `p`. -/
def underDir (root p : FPath) : Bool := p.take root.length = root

/-- `shutil.rmtree(root, ignore_errors=True)`: drop every entry at or
below `root`. -/
def removeTree (fs : FS) (root : FPath) : FS :=
  fs.filter (fun kv => ¬ underDir root kv.1)

/-- Render a path for an error message. -/
def renderPath (p : FPath) : Str :=
  p.foldl (fun acc seg => acc ++ '/' :: seg) []

/-- `IsADirectoryError` text. -/
def errIsADir (p : FPath) : Str :=
  chars "[Errno 21] Is a directory: " ++ renderPath p

/-- `FileNotFoundError` text. -/
def errNoEnt (p : FPath) : Str :=
  chars "[Errno 2] No such file or directory: " ++ renderPath p

/-- `FileExistsError` text. -/
def errExists (p : FPath) : Str :=
  chars "[Errno 17] File exists: " ++ renderPath p

/-- UTF-8 text that stands in for a `UnicodeDecodeError`. -/
def errDecode (p : FPath) : Str :=
  chars "invalid utf-8 data in " ++ renderPath p

/-- `Path.read_text(encoding="utf-8")`. -/
def readTextFS (fs : FS) (p : FPath) : Except Str Str :=
  match lookupFS fs p with
  | some (.file (.text s)) => .ok s
  | some (.file (.binary _)) => .error (errDecode p)
  | some .dir => .error (errIsADir p)
  | none => .error (errNoEnt p)

/-- `Path.write_text(.., encoding="utf-8")`: full overwrite. -/
def writeTextFS (fs : FS) (p : FPath) (s : Str) : Except Str FS :=
  match lookupFS fs p with
  | some .dir => .error (errIsADir p)
  | _ => .ok (setFS fs p (.file (.text s)))

/-- `Path.write_bytes`: full overwrite. -/
def writeBytesFS (fs : FS) (p : FPath) (b : List Nat) : Except Str FS :=
  match lookupFS fs p with
  | some .dir => .error (errIsADir p)
  | _ => .ok (setFS fs p (.file (.binary b)))

/-! ### Path arithmetic (`pathlib` \"/\" plus OS resolution on access) -/

/-- Split a POSIX path string on `'/'`. -/
def splitSlash : Str → List Seg
  | [] => [[]]
  | c :: t =>
    if c = '/' then [] :: splitSlash t
    else
      match splitSlash t with
      | [] => [[c]]
      | h :: r => (c :: h) :: r

/-- `base / target` as resolved when the file is accessed: an absolute
`target` discards `base` (as `pathlib`'s `/` does); empty and `.`
segments vanish; a `..` segment removes the preceding one. -/
def joinPath (base : FPath) (target : Str) : FPath :=
  let segs := (splitSlash target).filter (fun s => ¬ s = [] ∧ ¬ s = ['.'])
  let start := if startsWithSlash target then [] else base
  segs.foldl (fun acc seg => if seg = ['.', '.'] then acc.dropLast else acc ++ [seg]) start

/-! Small lemmas about the file-system map. -/

theorem lookupFS_filter (fs : FS) (p : FPath) (f : FPath × FSEntry → Bool)
    (hf : ∀ e, f (p, e) = true) :
    lookupFS (fs.filter f) p = lookupFS fs p := by
  induction fs with
  | nil => rfl
  | cons kv t ih =>
    cases kv with
    | mk k v =>
      by_cases hk : k = p
      · subst hk
        rw [List.filter_cons, if_pos (hf v), lookupFS, if_pos rfl, lookupFS, if_pos rfl]
      · rw [List.filter_cons]
        by_cases hfk : f (k, v) = true
        · rw [if_pos hfk, lookupFS, if_neg hk, lookupFS, if_neg hk]
          exact ih
        · rw [if_neg hfk, lookupFS, if_neg hk]
          exact ih

theorem lookupFS_setFS (fs : FS) (p q : FPath) (e : FSEntry) :
    lookupFS (setFS fs p e) q = if p = q then some e else lookupFS fs q := by
  unfold setFS
  rw [lookupFS]
  by_cases hpq : p = q
  · rw [if_pos hpq, if_pos hpq]
  · rw [if_neg hpq, if_neg hpq]
    exact lookupFS_filter fs q _ (fun e' => by
      simp only [decide_eq_true_eq]
      exact fun h => hpq h.symm)

theorem lookupFS_removeTree (fs : FS) (root p : FPath)
    (h : underDir root p = false) :
    lookupFS (removeTree fs root) p = lookupFS fs p := by
  unfold removeTree
  exact lookupFS_filter fs p _ (fun e => by simp [h])

theorem lookupFS_removeTree_under (fs : FS) (root p : FPath)
    (h : underDir root p = true) :
    lookupFS (removeTree fs root) p = none := by
  unfold removeTree
  induction fs with
  | nil => rfl
  | cons kv t ih =>
    cases kv with
    | mk k v =>
      rw [List.filter_cons]
      by_cases hk : underDir root k = true
      · rw [if_neg (by simp [hk])]
        exact ih
      · rw [if_pos (by simp [Bool.not_eq_true] at hk ⊢; exact hk), lookupFS]
        rw [if_neg (fun hkp => by rw [hkp] at hk; exact hk h)]
        exact ih

theorem lookupFS_append (fs fs2 : FS) (p : FPath) :
    lookupFS (fs ++ fs2) p =
      match lookupFS fs p with
      | some e => some e
      | none => lookupFS fs2 p := by
  induction fs with
  | nil => simp [lookupFS]
  | cons kv t ih =>
    cases kv with
    | mk k v =>
      by_cases hk : k = p
      · simp [lookupFS, hk]
      · simp only [List.cons_append, lookupFS, if_neg hk]
        exact ih

/-! Lemmas about `underDir`. -/

theorem underDir_iff (root p : FPath) :
    underDir root p = true ↔ ∃ r, p = root ++ r := by
  unfold underDir
  constructor
  · intro h
    rw [decide_eq_true_eq] at h
    refine ⟨p.drop root.length, ?_⟩
    conv_lhs => rw [← List.take_append_drop root.length p]
    rw [h]
  · rintro ⟨r, rfl⟩
    rw [decide_eq_true_eq]
    exact List.take_left root r

theorem underDir_refl (p : FPath) : underDir p p = true := by
  rw [underDir_iff]
  exact ⟨[], by simp⟩

theorem underDir_append (root r : FPath) : underDir root (root ++ r) = true := by
  rw [underDir_iff]
  exact ⟨r, rfl⟩

theorem underDir_trans {a b c : FPath} (h1 : underDir a b = true)
    (h2 : underDir b c = true) : underDir a c = true := by
  rw [underDir_iff] at h1 h2 ⊢
  obtain ⟨r1, rfl⟩ := h1
  obtain ⟨r2, rfl⟩ := h2
  exact ⟨r1 ++ r2, by simp⟩

/-- Two ancestors of one path are comparable. -/
theorem underDir_comparable {a b p : FPath} (ha : underDir a p = true)
    (hb : underDir b p = true) :
    underDir a b = true ∨ underDir b a = true := by
  rw [underDir_iff] at ha hb
  obtain ⟨ra, hra⟩ := ha
  obtain ⟨rb, hrb⟩ := hb
  have h : a ++ ra = b ++ rb := by rw [← hra, ← hrb]
  rcases List.append_eq_append_iff.mp h with ⟨t, ht, _⟩ | ⟨t, ht, _⟩
  · left
    rw [underDir_iff]
    exact ⟨t, ht⟩
  · right
    rw [underDir_iff]
    exact ⟨t, ht⟩

theorem dropLast_extends (p : FPath) : ∃ r, p = p.dropLast ++ r := by
  induction p with
  | nil => exact ⟨[], rfl⟩
  | cons a t ih =>
    cases t with
    | nil => exact ⟨[a], rfl⟩
    | cons b t2 =>
      obtain ⟨r, hr⟩ := ih
      exact ⟨r, by rw [List.dropLast_cons₂, List.cons_append, ← hr]⟩

theorem underDir_dropLast {p : FPath} : underDir p.dropLast p = true := by
  rw [underDir_iff]
  obtain ⟨r, hr⟩ := dropLast_extends p
  exact ⟨r, hr⟩

/-! ### Data model (`app/models/schemas.py`) -/

/-- `RuleResult{rule_index, success, message}`. -/
structure RuleResult where
  rule_index : Nat
  success : Bool
  message : Str
deriving DecidableEq

/-- `ValidationError{rule_index, field, message}`. -/
structure ValidationError where
  rule_index : Nat
  field : Str
  message : Str
deriving DecidableEq

/-- `ValidationResult{valid, errors}`. -/
structure ValidationResult where
  valid : Bool
  errors : List ValidationError
deriving DecidableEq

/-- `ReplacementRule = Union[ScriptRule, ImageRule]`. -/
inductive Rule where
  | script (target_path pattern replacement : Str) (use_regex : Bool)
  | image (target_path image_data : Str)
deriving DecidableEq

/-- The `target_path` field, common to both variants. -/
def Rule.targetPath : Rule → Str
  | .script tp _ _ _ => tp
  | .image tp _ => tp

/-- A value reaching `process_task`'s dynamically typed rule loop: either
a well-typed `ReplacementRule`, or (Python being dynamically typed) an
object of some other class, represented by its `type(rule).__name__`. -/
inductive PyRule where
  | known : Rule → PyRule
  | foreign : Str → PyRule
deriving DecidableEq

/-- `TaskStatus`. -/
inductive TaskStatus where
  | pending
  | processing
  | completed
  | failed
deriving DecidableEq

/-- The mutable task record held in `state.tasks[task_id]`. -/
structure TaskRec where
  status : TaskStatus
  rule_results : List RuleResult
  error : Option Str
  download_url : Option Str
deriving DecidableEq

/-! ### Rule validator (`RuleEngine.validate_rules`) -/

/-- `RuleEngine._validate_target_path`. -/
def validateTargetPath (rule_index : Nat) (target_path : Str) : List ValidationError :=
  if stripEmpty target_path then
    [{ rule_index := rule_index, field := chars "target_path",
       message := chars "target_path 不能为空" }]
  else
    (if hasSub (chars "..") target_path then
      [{ rule_index := rule_index, field := chars "target_path",
         message := chars "target_path 不能包含 \x27..\x27 路径遍历" }]
     else []) ++
    (if startsWithSlash target_path then
      [{ rule_index := rule_index, field := chars "target_path",
         message := chars "target_path 必须是相对路径，不能以 \x27/\x27 开头" }]
     else [])

/-- `RuleEngine._validate_script_rule` (the `re.error` diagnostic text is
modelled by a fixed placeholder). -/
def validateScriptRule (rule_index : Nat) (pattern : Str) (use_regex : Bool) :
    List ValidationError :=
  if stripEmpty pattern then
    [{ rule_index := rule_index, field := chars "pattern",
       message := chars "pattern 不能为空" }]
  else if use_regex then
    match parseRegex pattern with
    | none =>
      [{ rule_index := rule_index, field := chars "pattern",
         message := chars "无效的正则表达式: unsupported pattern" }]
    | some _ => []
  else []

/-- `RuleEngine._validate_image_rule`. -/
def validateImageRule (rule_index : Nat) (image_data : Str) : List ValidationError :=
  if stripEmpty image_data then
    [{ rule_index := rule_index, field := chars "image_data",
       message := chars "image_data 不能为空" }]
  else
    match b64Strict image_data with
    | .error _ =>
      [{ rule_index := rule_index, field := chars "image_data",
         message := chars "image_data 不是有效的 Base64 编码" }]
    | .ok _ => []

/-- Validation of one rule at its position. -/
def validateRuleAt (index : Nat) (r : Rule) : List ValidationError :=
  validateTargetPath index r.targetPath ++
    (match r with
     | .script _ pat _ ur => validateScriptRule index pat ur
     | .image _ idata => validateImageRule index idata)

/-- The `enumerate` loop of `validate_rules`. -/
def validateFrom (index : Nat) : List Rule → List ValidationError
  | [] => []
  | r :: t => validateRuleAt index r ++ validateFrom (index + 1) t

/-- `RuleEngine.validate_rules`. -/
def validate_rules (rules : List Rule) : ValidationResult :=
  let errors := validateFrom 0 rules
  { valid := errors.isEmpty, errors := errors }

/-! ### Rule appliers (`RuleEngine.apply_script_rule` / `apply_image_rule`) -/

/-- Failure message of `apply_script_rule`'s `except` branch. -/
def msgScriptFail (target_path e : Str) : Str :=
  chars "脚本替换失败: " ++ target_path ++ chars ", 错误: " ++ e

/-- Failure message of `apply_image_rule`'s `except` branch. -/
def msgImageFail (target_path e : Str) : Str :=
  chars "图片替换失败: " ++ target_path ++ chars ", 错误: " ++ e

/-- `RuleEngine.apply_script_rule`.  Every exception of the `try` body is
an `Except.error`, turned locally into a failure `RuleResult`; the
returned `rule_index` is `0`, overwritten by the caller. -/
def apply_script_rule (fs : FS) (base_dir : FPath)
    (target_path pattern replacement : Str) (use_regex : Bool) : FS × RuleResult :=
  let target_file := joinPath base_dir target_path
  if lookupFS fs target_file = none then
    (fs, { rule_index := 0, success := false,
           message := chars "目标文件不存在: " ++ target_path })
  else
    match readTextFS fs target_file with
    | .error e => (fs, { rule_index := 0, success := false, message := msgScriptFail target_path e })
    | .ok content =>
      let subst : Except Str Str :=
        if use_regex then
          match parseRegex pattern with
          | none => .error (chars "re.error: unsupported pattern")
          | some r =>
            match parseTemplate replacement with
            | .error e => .error e
            | .ok rendered => .ok (reSub r rendered content)
        else .ok (pyReplace content pattern replacement)
      match subst with
      | .error e => (fs, { rule_index := 0, success := false, message := msgScriptFail target_path e })
      | .ok new_content =>
        match writeTextFS fs target_file new_content with
        | .error e => (fs, { rule_index := 0, success := false, message := msgScriptFail target_path e })
        | .ok fs2 =>
          (fs2, { rule_index := 0, success := true,
                  message := chars "脚本替换成功: " ++ target_path })

/-- `RuleEngine.apply_image_rule` (note: the decode here is the *lenient*
`base64.b64decode(rule.image_data)`, without `validate=True`). -/
def apply_image_rule (fs : FS) (base_dir : FPath)
    (target_path image_data : Str) : FS × RuleResult :=
  let target_file := joinPath base_dir target_path
  if lookupFS fs target_file = none then
    (fs, { rule_index := 0, success := false,
           message := chars "目标文件不存在: " ++ target_path })
  else
    match b64Lenient image_data with
    | .error e => (fs, { rule_index := 0, success := false, message := msgImageFail target_path e })
    | .ok image_bytes =>
      match writeBytesFS fs target_file image_bytes with
      | .error e => (fs, { rule_index := 0, success := false, message := msgImageFail target_path e })
      | .ok fs2 =>
        (fs2, { rule_index := 0, success := true,
                message := chars "图片替换成功: " ++ target_path })

/-! ### Task pipeline (`APKProcessor`) -/

/-- Outcome of invoking the external `apktool b` process: on success the
produced artifact bytes, on failure its exit code and captured stderr. -/
inductive ToolOutcome where
  | ok : List Nat → ToolOutcome
  | err : Int → Str → ToolOutcome

/-- All prefixes of a path, shortest first. -/
def ancestors : FPath → List FPath
  | [] => [[]]
  | s :: t => [] :: (ancestors t).map (fun q => s :: q)

/-- `Path.mkdir(exist_ok=True)` for one directory. -/
def ensureDir (fs : FS) (p : FPath) : FS :=
  if (lookupFS fs p).isSome then fs else (p, FSEntry.dir) :: fs

/-- `Path.mkdir(parents=True, exist_ok=True)`. -/
def mkdirParents (fs : FS) (p : FPath) : FS :=
  (ancestors p).foldl ensureDir fs

/-- `shutil.copytree(cache_dir, work_dir)`: fails when the source is
missing or not a directory, or the destination already exists; otherwise
copies the whole tree, re-rooted at the destination. -/
def copytree (fs : FS) (src dst : FPath) : Except Str FS :=
  match lookupFS fs src with
  | none => .error (errNoEnt src)
  | some (.file _) => .error (chars "[Errno 20] Not a directory: " ++ renderPath src)
  | some .dir =>
    if (lookupFS fs dst).isSome then .error (errExists dst)
    else
      .ok (fs ++ fs.filterMap (fun kv =>
        if underDir src kv.1 then some (dst ++ kv.1.drop src.length, kv.2) else none))

/-- `APKProcessor.copy_cache_to_workdir`: `shutil.copytree` with any
failure wrapped in a `RuntimeError`. -/
def copy_cache_to_workdir (fs : FS) (cache_dir work_dir : FPath) : Except Str FS :=
  match copytree fs cache_dir work_dir with
  | .error e => .error (chars "复制缓存到工作目录失败: " ++ e)
  | .ok fs2 => .ok fs2

/-- `APKProcessor.recompile`: create the output's parent directory, run
`apktool b`; on failure report exit code and stripped stderr.  On success
the tool writes the artifact. -/
def recompile (fs : FS) (_source_dir output_apk : FPath) (tool : ToolOutcome) :
    FS × Option Str :=
  let fs1 := mkdirParents fs output_apk.dropLast
  match tool with
  | .ok artifact => (setFS fs1 output_apk (.file (.binary artifact)), none)
  | .err rc stderr =>
    (fs1, some (chars "apktool 重新打包失败 (exit code " ++ (toString rc).data ++
      chars "): " ++ pyStrip stderr))

/-- One iteration of `process_task`'s rule loop: type-dispatch to the
applier, then overwrite `rule_index` with the enumeration index. -/
def applyRuleAt (fs : FS) (decompiled_dir : FPath) (index : Nat) : PyRule → FS × RuleResult
  | .known (.script tp pat rep ur) =>
    let out := apply_script_rule fs decompiled_dir tp pat rep ur
    (out.1, { out.2 with rule_index := index })
  | .known (.image tp idata) =>
    let out := apply_image_rule fs decompiled_dir tp idata
    (out.1, { out.2 with rule_index := index })
  | .foreign typeName =>
    (fs, { rule_index := index, success := false,
           message := chars "未知的规则类型: " ++ typeName })

/-- `process_task`'s `for index, rule in enumerate(rules)` loop, started
at enumeration index `index`. -/
def applyRules (fs : FS) (decompiled_dir : FPath) (index : Nat) :
    List PyRule → FS × List RuleResult
  | [] => (fs, [])
  | r :: rest =>
    let step := applyRuleAt fs decompiled_dir index r
    let rec_ := applyRules step.1 decompiled_dir (index + 1) rest
    (rec_.1, step.2 :: rec_.2)

/-- The state and outcome `process_task` leaves behind: the final file
system, and either the rule-result list or the raised error's message. -/
structure PTResult where
  fs : FS
  outcome : Except Str (List RuleResult)

/-- `APKProcessor.process_task`: copy cache → apply rules → recompile,
cleaning up the workspace when copy or recompile fails. -/
def process_task (fs : FS) (cache_dir work_dir output_path : FPath)
    (rules : List PyRule) (tool : ToolOutcome) : PTResult :=
  match copy_cache_to_workdir fs cache_dir work_dir with
  | .error e => { fs := removeTree fs work_dir, outcome := .error e }
  | .ok fs1 =>
    let decompiled_dir := work_dir ++ [chars "decompiled"]
    let applied := applyRules fs1 decompiled_dir 0 rules
    match recompile applied.1 decompiled_dir output_path tool with
    | (fs3, some e) => { fs := removeTree fs3 work_dir, outcome := .error e }
    | (fs3, none) => { fs := fs3, outcome := .ok applied.2 }

/-- `task_router._run_task`: mark `PROCESSING`, run the pipeline, then
mark `COMPLETED` (storing results and download URL) or `FAILED` (storing
the error message). -/
def run_task (task : TaskRec) (fs : FS) (cache_dir work_dir output_path : FPath)
    (task_id : Str) (rules : List PyRule) (tool : ToolOutcome) : TaskRec × FS :=
  let task1 := { task with status := TaskStatus.processing }
  let pt := process_task fs cache_dir work_dir output_path rules tool
  match pt.outcome with
  | .ok results =>
    ({ task1 with
        status := TaskStatus.completed
        download_url := some (chars "/api/v1/download/" ++ task_id)
        rule_results := results }, pt.fs)
  | .error e =>
    ({ task1 with
        status := TaskStatus.failed
        error := some e }, pt.fs)

/-! ### Supporting lemmas about the rule loop -/

theorem applyRuleAt_index (fs : FS) (ddir : FPath) (idx : Nat) (r : PyRule) :
    ((applyRuleAt fs ddir idx r).2).rule_index = idx := by
  cases r with
  | known rl => cases rl <;> rfl
  | foreign tn => rfl

theorem applyRules_length (rules : List PyRule) (fs : FS) (ddir : FPath) (idx : Nat) :
    ((applyRules fs ddir idx rules).2).length = rules.length := by
  induction rules generalizing fs idx with
  | nil => rfl
  | cons r rest ih => simp [applyRules, ih]

theorem applyRules_index (rules : List PyRule) (fs : FS) (ddir : FPath) (idx : Nat)
    (i : Nat) (h : i < ((applyRules fs ddir idx rules).2).length) :
    (((applyRules fs ddir idx rules).2).get ⟨i, h⟩).rule_index = idx + i := by
  induction rules generalizing fs idx i with
  | nil => simp [applyRules] at h
  | cons r rest ih =>
    cases i with
    | zero =>
      simpa [applyRules] using applyRuleAt_index fs ddir idx r
    | succ j =>
      have h2 : j < ((applyRules (applyRuleAt fs ddir idx r).1 ddir (idx + 1) rest).2).length := by
        have := h
        simpa [applyRules] using this
      have := ih (applyRuleAt fs ddir idx r).1 (idx + 1) j h2
      simp only [applyRules, List.get_cons_succ]
      rw [this]
      omega

/-! ### Lookup-preservation lemmas -/

theorem writeTextFS_ok_lookup {fs : FS} {p : FPath} {s : Str} {fs2 : FS}
    (h : writeTextFS fs p s = .ok fs2) (q : FPath) (hq : ¬ p = q) :
    lookupFS fs2 q = lookupFS fs q := by
  unfold writeTextFS at h
  split at h
  · cases h
  · cases h
    rw [lookupFS_setFS, if_neg hq]

theorem writeBytesFS_ok_lookup {fs : FS} {p : FPath} {b : List Nat} {fs2 : FS}
    (h : writeBytesFS fs p b = .ok fs2) (q : FPath) (hq : ¬ p = q) :
    lookupFS fs2 q = lookupFS fs q := by
  unfold writeBytesFS at h
  split at h
  · cases h
  · cases h
    rw [lookupFS_setFS, if_neg hq]

theorem apply_script_rule_lookup (fs : FS) (base : FPath)
    (tp pat rep : Str) (ur : Bool) (q : FPath)
    (hq : ¬ q = joinPath base tp) :
    lookupFS (apply_script_rule fs base tp pat rep ur).1 q = lookupFS fs q := by
  by_cases hmiss : lookupFS fs (joinPath base tp) = none
  · simp [apply_script_rule, hmiss]
  · cases hrd : readTextFS fs (joinPath base tp) with
    | error e => simp [apply_script_rule, hmiss, hrd]
    | ok content =>
      cases ur with
      | false =>
        cases hw : writeTextFS fs (joinPath base tp) (pyReplace content pat rep) with
        | error e => simp [apply_script_rule, hmiss, hrd, hw]
        | ok fs2 =>
          simp only [apply_script_rule, hmiss, hrd, hw, if_neg, Bool.false_eq_true, if_false]
          exact writeTextFS_ok_lookup hw q (fun hpq => hq hpq.symm)
      | true =>
        cases hp : parseRegex pat with
        | none => simp [apply_script_rule, hmiss, hrd, hp]
        | some r =>
          cases ht : parseTemplate rep with
          | error e => simp [apply_script_rule, hmiss, hrd, hp, ht]
          | ok rendered =>
            cases hw : writeTextFS fs (joinPath base tp) (reSub r rendered content) with
            | error e => simp [apply_script_rule, hmiss, hrd, hp, ht, hw]
            | ok fs2 =>
              simp only [apply_script_rule, hmiss, hrd, hp, ht, hw, if_neg, if_true]
              exact writeTextFS_ok_lookup hw q (fun hpq => hq hpq.symm)

theorem apply_image_rule_lookup (fs : FS) (base : FPath)
    (tp idata : Str) (q : FPath)
    (hq : ¬ q = joinPath base tp) :
    lookupFS (apply_image_rule fs base tp idata).1 q = lookupFS fs q := by
  by_cases hmiss : lookupFS fs (joinPath base tp) = none
  · simp [apply_image_rule, hmiss]
  · cases hdec : b64Lenient idata with
    | error e => simp [apply_image_rule, hmiss, hdec]
    | ok image_bytes =>
      cases hw : writeBytesFS fs (joinPath base tp) image_bytes with
      | error e => simp [apply_image_rule, hmiss, hdec, hw]
      | ok fs2 =>
        simp only [apply_image_rule, hmiss, hdec, hw, if_neg]
        exact writeBytesFS_ok_lookup hw q (fun hpq => hq hpq.symm)

/-- The `target_path` a `PyRule` would write through, if any. -/
def PyRule.writeTarget : PyRule → Option Str
  | .known r => some r.targetPath
  | .foreign _ => none

theorem applyRules_lookup (rules : List PyRule) (fs : FS) (ddir : FPath)
    (idx : Nat) (q : FPath)
    (hsafe : ∀ r : Rule, PyRule.known r ∈ rules → ¬ q = joinPath ddir r.targetPath) :
    lookupFS (applyRules fs ddir idx rules).1 q = lookupFS fs q := by
  induction rules generalizing fs idx with
  | nil => rfl
  | cons r rest ih =>
    have hrest : ∀ rl : Rule, PyRule.known rl ∈ rest → ¬ q = joinPath ddir rl.targetPath :=
      fun rl hm => hsafe rl (List.mem_cons_of_mem _ hm)
    have hstep : lookupFS (applyRuleAt fs ddir idx r).1 q = lookupFS fs q := by
      cases r with
      | known rl =>
        have hq := hsafe rl (List.mem_cons_self _ _)
        cases rl with
        | script tp pat rep ur => exact apply_script_rule_lookup fs ddir tp pat rep ur q hq
        | image tp idata => exact apply_image_rule_lookup fs ddir tp idata q hq
      | foreign tn => rfl
    calc lookupFS (applyRules fs ddir idx (r :: rest)).1 q
        = lookupFS (applyRules (applyRuleAt fs ddir idx r).1 ddir (idx + 1) rest).1 q := by
          simp [applyRules]
      _ = lookupFS (applyRuleAt fs ddir idx r).1 q := ih _ (idx + 1) hrest
      _ = lookupFS fs q := hstep

theorem lookup_rebase_none (fs : FS) (src dst q : FPath)
    (hq : underDir dst q = false) :
    lookupFS (fs.filterMap (fun kv =>
      if underDir src kv.1 then some (dst ++ kv.1.drop src.length, kv.2) else none)) q
      = none := by
  induction fs with
  | nil => rfl
  | cons kv t ih =>
    rw [List.filterMap_cons]
    split
    · exact ih
    · rename_i e heq
      split at heq
      · cases heq
        rw [lookupFS]
        rw [if_neg ?_]
        · exact ih
        · intro hk
          rw [← hk] at hq
          rw [underDir_append] at hq
          cases hq
      · cases heq

theorem copytree_ok_lookup {fs : FS} {src dst : FPath} {fs1 : FS}
    (h : copytree fs src dst = .ok fs1) (q : FPath)
    (hq : underDir dst q = false) :
    lookupFS fs1 q = lookupFS fs q := by
  unfold copytree at h
  split at h
  · cases h
  · cases h
  · split at h
    · cases h
    · cases h
      rw [lookupFS_append]
      cases hl : lookupFS fs q with
      | some e => rfl
      | none => exact lookup_rebase_none fs src dst q hq

theorem copy_cache_ok {fs : FS} {c w : FPath} {fs1 : FS}
    (h : copy_cache_to_workdir fs c w = .ok fs1) : copytree fs c w = .ok fs1 := by
  unfold copy_cache_to_workdir at h
  split at h
  · cases h
  · rename_i fs2 heq
    cases h
    exact heq

theorem ancestors_under (p : FPath) : ∀ a ∈ ancestors p, underDir a p = true := by
  induction p with
  | nil =>
    intro a ha
    simp [ancestors] at ha
    subst ha
    exact underDir_refl []
  | cons s t ih =>
    intro a ha
    simp only [ancestors, List.mem_cons, List.mem_map] at ha
    rcases ha with rfl | ⟨b, hb, rfl⟩
    · rw [underDir_iff]
      exact ⟨s :: t, rfl⟩
    · have := ih b hb
      rw [underDir_iff] at this ⊢
      obtain ⟨r, hr⟩ := this
      exact ⟨r, by rw [List.cons_append, ← hr]⟩

theorem lookupFS_ensureDir (fs : FS) (a q : FPath) (hq : ¬ a = q) :
    lookupFS (ensureDir fs a) q = lookupFS fs q := by
  unfold ensureDir
  split
  · rfl
  · rw [lookupFS, if_neg hq]

theorem lookupFS_mkdirParents (fs : FS) (p q : FPath)
    (h : ∀ a : FPath, underDir a p = true → ¬ a = q) :
    lookupFS (mkdirParents fs p) q = lookupFS fs q := by
  unfold mkdirParents
  have : ∀ l : List FPath, (∀ a ∈ l, underDir a p = true) → ∀ g : FS,
      lookupFS (l.foldl ensureDir g) q = lookupFS g q := by
    intro l
    induction l with
    | nil => intro _ g; rfl
    | cons a t ih =>
      intro hl g
      rw [List.foldl_cons, ih (fun b hb => hl b (List.mem_cons_of_mem _ hb)),
        lookupFS_ensureDir g a q (h a (hl a (List.mem_cons_self _ _)))]
  exact this (ancestors p) (ancestors_under p) fs

theorem recompile_lookup (fs : FS) (sd out : FPath) (tool : ToolOutcome) (q : FPath)
    (h : ∀ a : FPath, underDir a out = true → ¬ a = q) :
    lookupFS (recompile fs sd out tool).1 q = lookupFS fs q := by
  have hmk : lookupFS (mkdirParents fs out.dropLast) q = lookupFS fs q := by
    refine lookupFS_mkdirParents fs out.dropLast q (fun a ha => ?_)
    exact h a (underDir_trans ha underDir_dropLast)
  unfold recompile
  cases tool with
  | ok art =>
    simp only
    rw [lookupFS_setFS, if_neg (h out (underDir_refl out)), hmk]
  | err rc stderr => exact hmk

/-! ### Path-shape lemmas for validated targets -/

theorem splitSlash_head (t : Str) :
    ∃ h r, splitSlash t = h :: r ∧ leadsWith h t = true := by
  induction t with
  | nil => exact ⟨[], [], rfl, rfl⟩
  | cons c t2 ih =>
    by_cases hc : c = '/'
    · subst hc
      exact ⟨[], splitSlash t2, by rw [splitSlash, if_pos rfl], rfl⟩
    · obtain ⟨h0, r0, hsp, hl⟩ := ih
      refine ⟨c :: h0, r0, ?_, ?_⟩
      · rw [splitSlash, if_neg hc, hsp]
      · simp [leadsWith, hl]

theorem splitSlash_no_dotdot {t : Str} (h : hasSub (chars "..") t = false) :
    ∀ seg ∈ splitSlash t, ¬ seg = chars ".." := by
  induction t with
  | nil =>
    intro seg hseg
    simp [splitSlash] at hseg
    subst hseg
    intro hx
    cases hx
  | cons c t2 ih =>
    obtain ⟨h1, h2⟩ := hasSub_cons_false h
    intro seg hseg
    by_cases hc : c = '/'
    · subst hc
      rw [splitSlash, if_pos rfl] at hseg
      rcases List.mem_cons.mp hseg with rfl | hm
      · intro hx
        cases hx
      · exact ih h2 seg hm
    · rw [splitSlash, if_neg hc] at hseg
      obtain ⟨h0, r0, hsp, hl⟩ := splitSlash_head t2
      rw [hsp] at hseg
      rcases List.mem_cons.mp hseg with rfl | hm
      · intro hx
        have hch : c = '.' ∧ h0 = ['.'] := by
          have := hx
          cases h0 with
          | nil => cases this
          | cons d dt =>
            cases dt with
            | nil =>
              injection this with e1 e2
              injection e2 with e3 e4
              exact ⟨e1, by rw [e3]⟩
            | cons d2 dt2 => cases this
        obtain ⟨rfl, rfl⟩ := hch
        have : leadsWith (chars "..") ('.' :: t2) = true := by
          have : t2 = '.' :: t2.tail := by
            cases t2 with
            | nil => cases hl
            | cons x xs =>
              have hx2 : x = '.' := by
                simp [leadsWith] at hl
                exact hl.symm
              rw [hx2]
              rfl
          rw [this]
          rfl
        rw [this] at h1
        cases h1
      · exact ih h2 seg (hsp ▸ List.mem_cons_of_mem _ hm)

theorem foldl_no_dotdot (l : List Seg) (hl : ∀ s ∈ l, ¬ s = chars "..") :
    ∀ acc : FPath, ∃ r, l.foldl
      (fun acc seg => if seg = ['.', '.'] then acc.dropLast else acc ++ [seg]) acc
      = acc ++ r := by
  induction l with
  | nil => exact fun acc => ⟨[], by simp⟩
  | cons s t ih =>
    intro acc
    have hs : ¬ s = ['.', '.'] := hl s (List.mem_cons_self _ _)
    obtain ⟨r, hr⟩ := ih (fun x hx => hl x (List.mem_cons_of_mem _ hx)) (acc ++ [s])
    refine ⟨[s] ++ r, ?_⟩
    rw [List.foldl_cons, if_neg hs, hr, List.append_assoc]

/-- A validated `target_path` (no `..`, not absolute) resolves inside the
base directory. -/
theorem joinPath_under (base : FPath) (tp : Str)
    (h1 : hasSub (chars "..") tp = false) (h2 : startsWithSlash tp = false) :
    ∃ r, joinPath base tp = base ++ r := by
  unfold joinPath
  rw [h2]
  simp only [Bool.false_eq_true, if_false]
  refine foldl_no_dotdot _ (fun s hs => ?_) base
  exact splitSlash_no_dotdot h1 s (List.mem_of_mem_filter hs)

/-! ### Validator shape lemmas -/

theorem validateTargetPath_nil {i : Nat} {tp : Str}
    (h : validateTargetPath i tp = []) :
    hasSub (chars "..") tp = false ∧ startsWithSlash tp = false := by
  unfold validateTargetPath at h
  split at h
  · cases h
  · constructor
    · cases hx : hasSub (chars "..") tp with
      | false => rfl
      | true => rw [hx] at h; simp at h
    · cases hx : startsWithSlash tp with
      | false => rfl
      | true => rw [hx] at h; simp at h

theorem validateFrom_nil_mem {k : Nat} {rules : List Rule}
    (h : validateFrom k rules = []) :
    ∀ r ∈ rules, hasSub (chars "..") r.targetPath = false ∧
      startsWithSlash r.targetPath = false := by
  induction rules generalizing k with
  | nil => intro r hr; cases hr
  | cons r0 rest ih =>
    rw [validateFrom, List.append_eq_nil] at h
    intro r hr
    rcases List.mem_cons.mp hr with rfl | hm
    · have hta : validateTargetPath k r.targetPath = [] := by
        have := h.1
        unfold validateRuleAt at this
        rw [List.append_eq_nil] at this
        exact this.1
      exact validateTargetPath_nil hta
    · exact ih h.2 r hm

theorem validate_rules_valid_mem {rules : List Rule}
    (h : (validate_rules rules).valid = true) :
    ∀ r ∈ rules, hasSub (chars "..") r.targetPath = false ∧
      startsWithSlash r.targetPath = false := by
  apply validateFrom_nil_mem
  unfold validate_rules at h
  simpa [List.isEmpty_iff] using h

theorem hasSub_append_right (a x : Str) : hasSub x (a ++ x) = true := by
  have h := hasSub_append_middle a x []
  simpa using h

/-! ### The claims -/

/-- C1: whenever the cache-to-workspace copy and the recompile both
succeed, `process_task` returns exactly one `RuleResult` per rule, in
request-list order, with `rule_results[i].rule_index = i`; an individual
rule failure never stops the loop, and the task reaches `COMPLETED`
regardless of how many rules failed (also when all of them did). -/
theorem C1_one_result_per_rule_completed
    (task0 : TaskRec) (fs : FS) (cache work out : FPath) (tid : Str)
    (rules : List PyRule) (art : List Nat)
    (hcopy : ∃ fs1, copy_cache_to_workdir fs cache work = .ok fs1) :
    (∃ results, (process_task fs cache work out rules (.ok art)).outcome = .ok results ∧
      results.length = rules.length ∧
      ∀ i (h : i < results.length), (results.get ⟨i, h⟩).rule_index = i) ∧
    (run_task task0 fs cache work out tid rules (.ok art)).1.status
      = TaskStatus.completed := by
  obtain ⟨fs1, hc⟩ := hcopy
  have hpt : (process_task fs cache work out rules (.ok art)).outcome =
      .ok (applyRules fs1 (work ++ [chars "decompiled"]) 0 rules).2 := by
    simp [process_task, hc, recompile]
  constructor
  · refine ⟨_, hpt, applyRules_length rules fs1 _ 0, ?_⟩
    intro i h
    simpa using applyRules_index rules fs1 (work ++ [chars "decompiled"]) 0 i h
  · simp [run_task, hpt]

/-- C2: a task execution (its rules having passed validation, with the
standard disjoint cache/workspace/output layout) never creates, deletes
or modifies any entry of the source cache tree, whether it ends in
success, copy failure or recompile failure. -/
theorem C2_cache_immutability (fs : FS) (cache work out : FPath)
    (rules : List Rule) (tool : ToolOutcome) (p : FPath)
    (hval : (validate_rules rules).valid = true)
    (hcw : underDir cache work = false) (hwc : underDir work cache = false)
    (hco : underDir cache out = false)
    (hp : underDir cache p = true) :
    lookupFS (process_task fs cache work out (rules.map PyRule.known) tool).fs p
      = lookupFS fs p := by
  have hwp : underDir work p = false := by
    cases hx : underDir work p with
    | false => rfl
    | true =>
      rcases underDir_comparable hp hx with h | h
      · rw [h] at hcw
        cases hcw
      · rw [h] at hwc
        cases hwc
  have hsafe : ∀ r : Rule, PyRule.known r ∈ rules.map PyRule.known →
      ¬ p = joinPath (work ++ [chars "decompiled"]) r.targetPath := by
    intro r hm hpe
    have hr : r ∈ rules := by
      obtain ⟨r0, hr0, he⟩ := List.mem_map.mp hm
      injection he with he2
      rw [← he2]
      exact hr0
    obtain ⟨hdd, hsl⟩ := validate_rules_valid_mem hval r hr
    obtain ⟨rst, hj⟩ := joinPath_under (work ++ [chars "decompiled"]) r.targetPath hdd hsl
    have hup : underDir work p = true := by
      rw [hpe, hj, List.append_assoc]
      exact underDir_append work _
    rw [hup] at hwp
    cases hwp
  have hre : ∀ a : FPath, underDir a out = true → ¬ a = p := by
    intro a ha hap
    subst hap
    have h2 : underDir cache out = true := underDir_trans hp ha
    rw [h2] at hco
    cases hco
  unfold process_task
  cases hc : copy_cache_to_workdir fs cache work with
  | error e => exact lookupFS_removeTree fs work p hwp
  | ok fs1 =>
    have h1 : lookupFS fs1 p = lookupFS fs p :=
      copytree_ok_lookup (copy_cache_ok hc) p hwp
    have h2 : lookupFS (applyRules fs1 (work ++ [chars "decompiled"]) 0
        (rules.map PyRule.known)).1 p = lookupFS fs1 p :=
      applyRules_lookup _ fs1 _ 0 p hsafe
    have h3 : lookupFS (recompile (applyRules fs1 (work ++ [chars "decompiled"]) 0
        (rules.map PyRule.known)).1 (work ++ [chars "decompiled"]) out tool).1 p =
        lookupFS (applyRules fs1 (work ++ [chars "decompiled"]) 0
          (rules.map PyRule.known)).1 p :=
      recompile_lookup _ _ out tool p hre
    cases tool with
    | ok art => exact (h3.trans h2).trans h1
    | err rc stderr =>
      exact (lookupFS_removeTree _ work p hwp).trans ((h3.trans h2).trans h1)

/-- C3: if workspace isolation succeeds and the recompile step fails, the
task is marked `FAILED`, its error message contains the recompile tool's
diagnostic text (the stripped stderr), and the task's workspace no longer
exists when the runner returns. -/
theorem C3_recompile_failure_cleanup
    (task0 : TaskRec) (fs : FS) (cache work out : FPath) (tid : Str)
    (rules : List PyRule) (rc : Int) (stderr : Str)
    (hcopy : ∃ fs1, copy_cache_to_workdir fs cache work = .ok fs1) :
    (run_task task0 fs cache work out tid rules (.err rc stderr)).1.status
        = TaskStatus.failed ∧
    (∃ m, (run_task task0 fs cache work out tid rules (.err rc stderr)).1.error = some m ∧
      hasSub (pyStrip stderr) m = true) ∧
    (∀ p, underDir work p = true →
      lookupFS (run_task task0 fs cache work out tid rules (.err rc stderr)).2 p = none) := by
  obtain ⟨fs1, hc⟩ := hcopy
  have hpt : process_task fs cache work out rules (.err rc stderr) =
      { fs := removeTree (recompile (applyRules fs1 (work ++ [chars "decompiled"]) 0 rules).1
            (work ++ [chars "decompiled"]) out (.err rc stderr)).1 work,
        outcome := .error (chars "apktool 重新打包失败 (exit code " ++ (toString rc).data ++
          chars "): " ++ pyStrip stderr) } := by
    simp [process_task, hc, recompile]
  refine ⟨?_, ⟨chars "apktool 重新打包失败 (exit code " ++ (toString rc).data ++
    chars "): " ++ pyStrip stderr, ?_, ?_⟩, ?_⟩
  · simp [run_task, hpt]
  · simp [run_task, hpt]
  · have h := hasSub_append_right
      (chars "apktool 重新打包失败 (exit code " ++ (toString rc).data ++ chars "): ")
      (pyStrip stderr)
    simpa [List.append_assoc] using h
  · intro p hup
    simp only [run_task, hpt]
    exact lookupFS_removeTree_under _ work p hup

/-- C4: a rule (script or image) whose resolved target file does not
exist yields a failure `RuleResult` whose message includes the target
path, without raising, and the rule loop continues with the remaining
rules of the batch. -/
theorem C4_missing_target_file (fs : FS) (base : FPath)
    (tp pat rep : Str) (ur : Bool) (idata : Str) (k : Nat) (rest : List PyRule)
    (hmiss : lookupFS fs (joinPath base tp) = none) :
    ((apply_script_rule fs base tp pat rep ur).1 = fs ∧
     (apply_script_rule fs base tp pat rep ur).2.success = false ∧
     hasSub tp (apply_script_rule fs base tp pat rep ur).2.message = true) ∧
    ((apply_image_rule fs base tp idata).1 = fs ∧
     (apply_image_rule fs base tp idata).2.success = false ∧
     hasSub tp (apply_image_rule fs base tp idata).2.message = true) ∧
    ((applyRules fs base k (PyRule.known (.script tp pat rep ur) :: rest)).2 =
      { rule_index := k, success := false, message := chars "目标文件不存在: " ++ tp } ::
        (applyRules fs base (k + 1) rest).2) ∧
    ((applyRules fs base k (PyRule.known (.image tp idata) :: rest)).2 =
      { rule_index := k, success := false, message := chars "目标文件不存在: " ++ tp } ::
        (applyRules fs base (k + 1) rest).2) := by
  refine ⟨⟨?_, ?_, ?_⟩, ⟨?_, ?_, ?_⟩, ?_, ?_⟩
  · simp [apply_script_rule, hmiss]
  · simp [apply_script_rule, hmiss]
  · simp only [apply_script_rule, hmiss, if_pos]
    exact hasSub_append_right (chars "目标文件不存在: ") tp
  · simp [apply_image_rule, hmiss]
  · simp [apply_image_rule, hmiss]
  · simp only [apply_image_rule, hmiss, if_pos]
    exact hasSub_append_right (chars "目标文件不存在: ") tp
  · simp [applyRules, applyRuleAt, apply_script_rule, hmiss]
  · simp [applyRules, applyRuleAt, apply_image_rule, hmiss]

/-- A file system with one regular file at the root, target of the C5
counterexample. -/
def cxFS : FS := [([chars "img.png"], FSEntry.file (.binary [1, 2, 3]))]

/-- C5, counterexample: `"AA!=="` is not valid base64 (the strict decode
used by the validator rejects it), the target file exists, and yet
`apply_image_rule` *succeeds*: the application stage decodes leniently
(`base64.b64decode` without `validate=True` discards the `!` and decodes
the rest), so malformed base64 at this stage is not always a failure. -/
theorem C5_counterexample_lenient_success :
    (∃ e, b64Strict (chars "AA!==") = Except.error e) ∧
    ¬ lookupFS cxFS (joinPath [] (chars "img.png")) = none ∧
    (apply_image_rule cxFS [] (chars "img.png") (chars "AA!==")).2.success = true := by
  refine ⟨⟨chars "Only base64 data is allowed", ?_⟩, ?_, ?_⟩
  · rfl
  · intro h
    cases h
  · rfl

/-- C5, amended: for an image rule whose target file exists, if the
*lenient* decode of `image_data` fails (for example on incorrect
padding), applying the rule produces a failure `RuleResult` and no
exception escapes; input that is invalid under strict validation but
whose residue after discarding non-alphabet characters decodes is
silently decoded leniently rather than failed (see the counterexample). -/
theorem C5_lenient_decode_failure (fs : FS) (base : FPath) (tp idata : Str)
    (hex : ¬ lookupFS fs (joinPath base tp) = none)
    (hdec : ∃ e, b64Lenient idata = Except.error e) :
    (apply_image_rule fs base tp idata).1 = fs ∧
    (apply_image_rule fs base tp idata).2.success = false := by
  obtain ⟨e, he⟩ := hdec
  constructor
  · simp [apply_image_rule, hex, he]
  · simp [apply_image_rule, hex, he]

/-- C6, amended: a script rule on an existing UTF-8 target succeeds and
leaves the file byte-identical whenever the literal pattern has zero
occurrences (literal mode) or the compiled regex has zero matches (regex
mode; the replacement template must itself compile, since `re.sub`
compiles it eagerly and a bad escape there is a failure even with zero
matches — see the counterexample). -/
theorem C6_zero_matches_identity (fs : FS) (base : FPath)
    (tp pat rep : Str) (ur : Bool) (content : Str)
    (hfile : lookupFS fs (joinPath base tp) = some (FSEntry.file (.text content)))
    (hzero : if ur then ∃ r rendered, parseRegex pat = some r ∧
               parseTemplate rep = .ok rendered ∧ regexHasMatch r content = false
             else hasSub pat content = false) :
    (apply_script_rule fs base tp pat rep ur).2.success = true ∧
    ∀ q, lookupFS (apply_script_rule fs base tp pat rep ur).1 q = lookupFS fs q := by
  have hex : ¬ lookupFS fs (joinPath base tp) = none := by
    rw [hfile]
    intro h
    cases h
  have hrd : readTextFS fs (joinPath base tp) = .ok content := by
    unfold readTextFS
    rw [hfile]
  have hwr : writeTextFS fs (joinPath base tp) content =
      .ok (setFS fs (joinPath base tp) (.file (.text content))) := by
    unfold writeTextFS
    rw [hfile]
  have hlook : ∀ q, lookupFS (setFS fs (joinPath base tp) (.file (.text content))) q
      = lookupFS fs q := by
    intro q
    rw [lookupFS_setFS]
    by_cases hq : joinPath base tp = q
    · rw [if_pos hq, ← hq, hfile]
    · rw [if_neg hq]
  cases ur with
  | false =>
    have hrepl : pyReplace content pat rep = content := pyReplace_no_occur content pat rep hzero
    constructor
    · simp [apply_script_rule, hex, hrd, hrepl, hwr]
    · intro q
      simp [apply_script_rule, hex, hrd, hrepl, hwr, hlook]
  | true =>
    obtain ⟨r, rendered, hpr, htm, hnm⟩ := hzero
    have hrepl : reSub r rendered content = content := reSub_no_match r rendered content hnm
    constructor
    · simp [apply_script_rule, hex, hrd, hpr, htm, hrepl, hwr]
    · intro q
      simp [apply_script_rule, hex, hrd, hpr, htm, hrepl, hwr, hlook]

/-- C7: for a rule whose `target_path` is non-empty after trimming, both
contains `..` and starts with `/`, the validator reports two independent
errors on the `target_path` field (one for the parent-directory segment,
one for the absolute path), not just the first applicable one. -/
theorem C7_compounding_path_errors (i : Nat) (p : Str)
    (h1 : stripEmpty p = false)
    (h2 : hasSub (chars "..") p = true)
    (h3 : startsWithSlash p = true) :
    validateTargetPath i p =
      [{ rule_index := i, field := chars "target_path",
         message := chars "target_path 不能包含 \x27..\x27 路径遍历" },
       { rule_index := i, field := chars "target_path",
         message := chars "target_path 必须是相对路径，不能以 \x27/\x27 开头" }] ∧
    (validateTargetPath i p).length = 2 ∧
    ∀ e ∈ validateTargetPath i p, e.rule_index = i ∧ e.field = chars "target_path" := by
  have heq : validateTargetPath i p =
      [{ rule_index := i, field := chars "target_path",
         message := chars "target_path 不能包含 \x27..\x27 路径遍历" },
       { rule_index := i, field := chars "target_path",
         message := chars "target_path 必须是相对路径，不能以 \x27/\x27 开头" }] := by
    unfold validateTargetPath
    rw [h1, h2, h3]
    rfl
  refine ⟨heq, ?_, ?_⟩
  · rw [heq]
    rfl
  · rw [heq]
    intro e he
    rcases List.mem_cons.mp he with rfl | he2
    · exact ⟨rfl, rfl⟩
    · rcases List.mem_cons.mp he2 with rfl | he3
      · exact ⟨rfl, rfl⟩
      · cases he3

/-- C8: the background runner always drives a task to a terminal state:
after `run_task` the status is `COMPLETED` or `FAILED` (never still
`PROCESSING`), and whenever the pipeline fails the `error` field holds
exactly the failure's message. -/
theorem C8_terminal_state (task0 : TaskRec) (fs : FS)
    (cache work out : FPath) (tid : Str) (rules : List PyRule) (tool : ToolOutcome) :
    ((run_task task0 fs cache work out tid rules tool).1.status = TaskStatus.completed ∨
     (run_task task0 fs cache work out tid rules tool).1.status = TaskStatus.failed) ∧
    (∀ e, (process_task fs cache work out rules tool).outcome = .error e →
      (run_task task0 fs cache work out tid rules tool).1.status = TaskStatus.failed ∧
      (run_task task0 fs cache work out tid rules tool).1.error = some e) := by
  constructor
  · cases hpt : (process_task fs cache work out rules tool).outcome with
    | ok results =>
      left
      simp [run_task, hpt]
    | error e =>
      right
      simp [run_task, hpt]
  · intro e he
    constructor
    · simp [run_task, he]
    · simp [run_task, he]

/-- C9: a value in the rule list that is neither a `ScriptRule` nor an
`ImageRule` does not abort the loop: it yields a failure `RuleResult`
naming the unknown rule type, with `rule_index` set to the rule's
position, and the remaining rules are still applied. -/
theorem C9_unknown_rule_type (fs : FS) (ddir : FPath) (k : Nat)
    (tname : Str) (rest : List PyRule) :
    (applyRules fs ddir k (PyRule.foreign tname :: rest)).1 =
      (applyRules fs ddir (k + 1) rest).1 ∧
    (applyRules fs ddir k (PyRule.foreign tname :: rest)).2 =
      { rule_index := k, success := false,
        message := chars "未知的规则类型: " ++ tname } ::
        (applyRules fs ddir (k + 1) rest).2 ∧
    hasSub tname (chars "未知的规则类型: " ++ tname) = true ∧
    ((applyRules fs ddir k (PyRule.foreign tname :: rest)).2).length
      = rest.length + 1 := by
  refine ⟨rfl, rfl, hasSub_append_right _ _, ?_⟩
  rw [applyRules_length]
  rfl

/-- C10: a rule whose target path resolves to an existing directory does
not raise: the existence check passes, the read (script rule) or write
(image rule, once the payload decodes) fails with `IsADirectoryError`,
which is caught locally and becomes a failure `RuleResult` carrying the
underlying error text. -/
theorem C10_directory_target (fs : FS) (base : FPath)
    (tp pat rep : Str) (ur : Bool) (idata : Str) (bts : List Nat)
    (hdir : lookupFS fs (joinPath base tp) = some FSEntry.dir)
    (hdec : b64Lenient idata = Except.ok bts) :
    ((apply_script_rule fs base tp pat rep ur).1 = fs ∧
     (apply_script_rule fs base tp pat rep ur).2.success = false ∧
     hasSub (errIsADir (joinPath base tp))
       (apply_script_rule fs base tp pat rep ur).2.message = true) ∧
    ((apply_image_rule fs base tp idata).1 = fs ∧
     (apply_image_rule fs base tp idata).2.success = false ∧
     hasSub (errIsADir (joinPath base tp))
       (apply_image_rule fs base tp idata).2.message = true) := by
  have hex : ¬ lookupFS fs (joinPath base tp) = none := by
    rw [hdir]
    intro h
    cases h
  have hrd : readTextFS fs (joinPath base tp) = .error (errIsADir (joinPath base tp)) := by
    unfold readTextFS
    rw [hdir]
  have hwr : writeBytesFS fs (joinPath base tp) bts
      = .error (errIsADir (joinPath base tp)) := by
    unfold writeBytesFS
    rw [hdir]
  refine ⟨⟨?_, ?_, ?_⟩, ⟨?_, ?_, ?_⟩⟩
  · simp [apply_script_rule, hex, hrd]
  · simp [apply_script_rule, hex, hrd]
  · simp only [apply_script_rule, hex, hrd, if_neg]
    have h := hasSub_append_right (chars "脚本替换失败: " ++ tp ++ chars ", 错误: ")
      (errIsADir (joinPath base tp))
    simpa [msgScriptFail, List.append_assoc] using h
  · simp [apply_image_rule, hex, hdec, hwr]
  · simp [apply_image_rule, hex, hdec, hwr]
  · simp only [apply_image_rule, hex, hdec, hwr, if_neg]
    have h := hasSub_append_right (chars "图片替换失败: " ++ tp ++ chars ", 错误: ")
      (errIsADir (joinPath base tp))
    simpa [msgImageFail, List.append_assoc] using h

/-! ### Concrete instances -/

/-- A cache directory path, for concrete runs. -/
def wCache : FPath := [chars "c"]

/-- A workspace path, disjoint from the cache. -/
def wWork : FPath := [chars "w"]

/-- An output-artifact path, disjoint from the cache. -/
def wOut : FPath := [chars "o", chars "out.apk"]

/-- A small file system: a cache tree holding one decompiled text file. -/
def wFS : FS :=
  [(wCache, FSEntry.dir),
   (wCache ++ [chars "decompiled"], FSEntry.dir),
   (wCache ++ [chars "decompiled", chars "a.txt"], FSEntry.file (.text (chars "hello")))]

/-- A fresh pending task record. -/
def wTask : TaskRec :=
  { status := TaskStatus.pending, rule_results := [], error := none, download_url := none }

/-- A two-rule batch in which every rule targets a nonexistent file. -/
def wRulesFail : List PyRule :=
  [PyRule.known (Rule.script (chars "nope.txt") (chars "a") (chars "b") false),
   PyRule.known (Rule.image (chars "nope.png") (chars "AAAA"))]

/-- C1 at a concrete all-rules-fail batch: the copy succeeds, each rule
gets its result with `rule_index = i`, and the task completes. -/
theorem C1_witness :
    (∃ fs1, copy_cache_to_workdir wFS wCache wWork = .ok fs1) ∧
    (∃ results, (process_task wFS wCache wWork wOut wRulesFail (.ok [7])).outcome = .ok results ∧
      results.length = wRulesFail.length ∧
      ∀ i (h : i < results.length), (results.get ⟨i, h⟩).rule_index = i) ∧
    (run_task wTask wFS wCache wWork wOut (chars "t1") wRulesFail (.ok [7])).1.status
      = TaskStatus.completed := by
  have h : ∃ fs1, copy_cache_to_workdir wFS wCache wWork = .ok fs1 := ⟨_, rfl⟩
  have hc := C1_one_result_per_rule_completed wTask wFS wCache wWork wOut (chars "t1")
    wRulesFail [7] h
  exact ⟨h, hc.1, hc.2⟩

/-- A validated single-rule batch. -/
def wRulesOk : List Rule := [Rule.script (chars "a.txt") (chars "h") (chars "H") false]

/-- C2 at a concrete task run: the validated rule set leaves the cache
directory entry unchanged. -/
theorem C2_witness :
    (validate_rules wRulesOk).valid = true ∧
    underDir wCache wWork = false ∧
    underDir wWork wCache = false ∧
    underDir wCache wOut = false ∧
    underDir wCache wCache = true ∧
    lookupFS (process_task wFS wCache wWork wOut (wRulesOk.map PyRule.known) (.ok [7])).fs wCache
      = lookupFS wFS wCache := by
  refine ⟨rfl, rfl, rfl, rfl, underDir_refl wCache, ?_⟩
  exact C2_cache_immutability wFS wCache wWork wOut wRulesOk (.ok [7]) wCache
    rfl rfl rfl rfl (underDir_refl wCache)

/-- C3 at a concrete run whose recompile fails with stderr `" boom "`. -/
theorem C3_witness :
    (∃ fs1, copy_cache_to_workdir wFS wCache wWork = .ok fs1) ∧
    (run_task wTask wFS wCache wWork wOut (chars "t2") [] (.err 1 (chars " boom "))).1.status
      = TaskStatus.failed ∧
    (∃ m, (run_task wTask wFS wCache wWork wOut (chars "t2") [] (.err 1 (chars " boom "))).1.error
        = some m ∧ hasSub (pyStrip (chars " boom ")) m = true) ∧
    (∀ p, underDir wWork p = true →
      lookupFS (run_task wTask wFS wCache wWork wOut (chars "t2") [] (.err 1 (chars " boom "))).2 p
        = none) := by
  have h : ∃ fs1, copy_cache_to_workdir wFS wCache wWork = .ok fs1 := ⟨_, rfl⟩
  obtain ⟨h1, h2, h3⟩ := C3_recompile_failure_cleanup wTask wFS wCache wWork wOut
    (chars "t2") [] 1 (chars " boom ") h
  exact ⟨h, h1, h2, h3⟩

/-- C4 at a concrete missing target. -/
theorem C4_witness :
    lookupFS [] (joinPath [] (chars "x.txt")) = none ∧
    (((apply_script_rule [] [] (chars "x.txt") (chars "a") (chars "b") false).1 = [] ∧
      (apply_script_rule [] [] (chars "x.txt") (chars "a") (chars "b") false).2.success = false ∧
      hasSub (chars "x.txt")
        (apply_script_rule [] [] (chars "x.txt") (chars "a") (chars "b") false).2.message = true) ∧
     ((apply_image_rule [] [] (chars "x.txt") (chars "AA==")).1 = [] ∧
      (apply_image_rule [] [] (chars "x.txt") (chars "AA==")).2.success = false ∧
      hasSub (chars "x.txt")
        (apply_image_rule [] [] (chars "x.txt") (chars "AA==")).2.message = true) ∧
     ((applyRules [] [] 0 (PyRule.known (.script (chars "x.txt") (chars "a") (chars "b") false) :: [])).2 =
       { rule_index := 0, success := false,
         message := chars "目标文件不存在: " ++ chars "x.txt" } :: (applyRules [] [] 1 []).2) ∧
     ((applyRules [] [] 0 (PyRule.known (.image (chars "x.txt") (chars "AA==")) :: [])).2 =
       { rule_index := 0, success := false,
         message := chars "目标文件不存在: " ++ chars "x.txt" } :: (applyRules [] [] 1 []).2)) := by
  exact ⟨rfl, C4_missing_target_file [] [] (chars "x.txt") (chars "a") (chars "b") false
    (chars "AA==") 0 [] rfl⟩

/-- C5 (amended) at a concrete input whose lenient decode fails. -/
theorem C5_witness :
    (¬ lookupFS cxFS (joinPath [] (chars "img.png")) = none) ∧
    (∃ e, b64Lenient (chars "AAA") = Except.error e) ∧
    ((apply_image_rule cxFS [] (chars "img.png") (chars "AAA")).1 = cxFS ∧
     (apply_image_rule cxFS [] (chars "img.png") (chars "AAA")).2.success = false) := by
  have h1 : ¬ lookupFS cxFS (joinPath [] (chars "img.png")) = none := by
    intro h
    cases h
  have h2 : ∃ e, b64Lenient (chars "AAA") = Except.error e := ⟨_, rfl⟩
  exact ⟨h1, h2, C5_lenient_decode_failure cxFS [] (chars "img.png") (chars "AAA") h1 h2⟩

/-- C6, counterexample: a regex rule on an existing readable target whose
pattern (`zz*`) compiles and has zero matches in the content `hello`
still yields a *failure* `RuleResult` when the replacement is the bad
escape `\q`: `re.sub` compiles the replacement template before scanning,
so the claim's success guarantee does not hold for every replacement. -/
theorem C6_counterexample_bad_template :
    lookupFS wFS (joinPath (wCache ++ [chars "decompiled"]) (chars "a.txt"))
      = some (FSEntry.file (.text (chars "hello"))) ∧
    parseRegex (chars "zz*")
      = some (Reg.cat (Reg.chr 'z') (Reg.cat (Reg.star (Reg.chr 'z')) Reg.eps)) ∧
    regexHasMatch (Reg.cat (Reg.chr 'z') (Reg.cat (Reg.star (Reg.chr 'z')) Reg.eps))
      (chars "hello") = false ∧
    ¬ (apply_script_rule wFS (wCache ++ [chars "decompiled"]) (chars "a.txt")
        (chars "zz*") (chars "\\q") true).2.success = true := by
  refine ⟨rfl, rfl, rfl, ?_⟩
  intro h
  cases h

/-- C6 at a concrete zero-occurrence literal substitution and a concrete
zero-match regex substitution (whose replacement template compiles). -/
theorem C6_witness :
    lookupFS wFS (joinPath (wCache ++ [chars "decompiled"]) (chars "a.txt"))
      = some (FSEntry.file (.text (chars "hello"))) ∧
    hasSub (chars "zz") (chars "hello") = false ∧
    ((apply_script_rule wFS (wCache ++ [chars "decompiled"]) (chars "a.txt")
        (chars "zz") (chars "y") false).2.success = true ∧
     ∀ q, lookupFS (apply_script_rule wFS (wCache ++ [chars "decompiled"]) (chars "a.txt")
        (chars "zz") (chars "y") false).1 q = lookupFS wFS q) ∧
    (∃ r rendered, parseRegex (chars "zz*") = some r ∧
      parseTemplate (chars "y") = .ok rendered ∧
      regexHasMatch r (chars "hello") = false) ∧
    ((apply_script_rule wFS (wCache ++ [chars "decompiled"]) (chars "a.txt")
        (chars "zz*") (chars "y") true).2.success = true ∧
     ∀ q, lookupFS (apply_script_rule wFS (wCache ++ [chars "decompiled"]) (chars "a.txt")
        (chars "zz*") (chars "y") true).1 q = lookupFS wFS q) := by
  have hre : ∃ r rendered, parseRegex (chars "zz*") = some r ∧
      parseTemplate (chars "y") = .ok rendered ∧
      regexHasMatch r (chars "hello") = false :=
    ⟨Reg.cat (Reg.chr 'z') (Reg.cat (Reg.star (Reg.chr 'z')) Reg.eps), chars "y",
      rfl, rfl, rfl⟩
  refine ⟨rfl, rfl, ?_, hre, ?_⟩
  · exact C6_zero_matches_identity wFS (wCache ++ [chars "decompiled"])
      (chars "a.txt") (chars "zz") (chars "y") false (chars "hello") rfl rfl
  · exact C6_zero_matches_identity wFS (wCache ++ [chars "decompiled"])
      (chars "a.txt") (chars "zz*") (chars "y") true (chars "hello") rfl hre

/-- C7 at the concrete path `"/a/../b"`. -/
theorem C7_witness :
    stripEmpty (chars "/a/../b") = false ∧
    hasSub (chars "..") (chars "/a/../b") = true ∧
    startsWithSlash (chars "/a/../b") = true ∧
    (validateTargetPath 0 (chars "/a/../b") =
      [{ rule_index := 0, field := chars "target_path",
         message := chars "target_path 不能包含 \x27..\x27 路径遍历" },
       { rule_index := 0, field := chars "target_path",
         message := chars "target_path 必须是相对路径，不能以 \x27/\x27 开头" }] ∧
     (validateTargetPath 0 (chars "/a/../b")).length = 2 ∧
     ∀ e ∈ validateTargetPath 0 (chars "/a/../b"),
       e.rule_index = 0 ∧ e.field = chars "target_path") := by
  exact ⟨rfl, rfl, rfl, C7_compounding_path_errors 0 (chars "/a/../b") rfl rfl rfl⟩

/-- C8 at a concrete failing pipeline (the cache directory is missing, so
isolation fails): the task ends `FAILED` with the failure's message. -/
theorem C8_witness :
    ((run_task wTask [] wCache wWork wOut (chars "t3") [] (.ok [])).1.status
        = TaskStatus.completed ∨
     (run_task wTask [] wCache wWork wOut (chars "t3") [] (.ok [])).1.status
        = TaskStatus.failed) ∧
    ((run_task wTask [] wCache wWork wOut (chars "t3") [] (.ok [])).1.status
        = TaskStatus.failed ∧
     (run_task wTask [] wCache wWork wOut (chars "t3") [] (.ok [])).1.error
        = some (chars "复制缓存到工作目录失败: " ++ errNoEnt wCache)) := by
  have h := C8_terminal_state wTask [] wCache wWork wOut (chars "t3") [] (.ok [])
  exact ⟨h.1, h.2 _ rfl⟩

/-- A file system holding a directory where a rule expects a file. -/
def wDirFS : FS := [([chars "sub"], FSEntry.dir)]

/-- C10 at a concrete directory-valued target. -/
theorem C10_witness :
    lookupFS wDirFS (joinPath [] (chars "sub")) = some FSEntry.dir ∧
    b64Lenient (chars "AA==") = Except.ok [0] ∧
    (((apply_script_rule wDirFS [] (chars "sub") (chars "a") (chars "b") false).1 = wDirFS ∧
      (apply_script_rule wDirFS [] (chars "sub") (chars "a") (chars "b") false).2.success = false ∧
      hasSub (errIsADir (joinPath [] (chars "sub")))
        (apply_script_rule wDirFS [] (chars "sub") (chars "a") (chars "b") false).2.message = true) ∧
     ((apply_image_rule wDirFS [] (chars "sub") (chars "AA==")).1 = wDirFS ∧
      (apply_image_rule wDirFS [] (chars "sub") (chars "AA==")).2.success = false ∧
      hasSub (errIsADir (joinPath [] (chars "sub")))
        (apply_image_rule wDirFS [] (chars "sub") (chars "AA==")).2.message = true)) := by
  exact ⟨rfl, rfl, C10_directory_target wDirFS [] (chars "sub") (chars "a") (chars "b") false
    (chars "AA==") [0] rfl rfl⟩

end ApkPack
